import Mathlib

/-!
Verification of the archive repacking engine in `src/cli/repack.py`.

The development shallowly embeds the pure content of the module:

* byte streams and files are `List Nat` (each element a byte value);
* Python strings are Lean `String` / `List Char`;
* fallible code returns `Except String` or `Option`;
* external collaborators (zlib, marshal, the filesystem, platform flags,
  the PyInstaller reader) are parameters gathered in environment
  structures, so the theorems quantify over their behaviour.

Definitions are translated from the source file; each definition's doc
comment names the Python function it embeds.
-/

namespace Repack

/-! ## Basic byte and string utilities -/

/-- Big-endian 4-byte encoding of a natural number (low 32 bits),
the byte image produced by `struct.pack` for one 4-byte field. -/
def be32 (n : Nat) : List Nat :=
  [n / 16777216 % 256, n / 65536 % 256, n / 256 % 256, n % 256]

/-- `struct.pack '!I'`: fails (struct.error) when out of the uint32 range. -/
def packU32 (n : Nat) : Option (List Nat) :=
  if n < 4294967296 then some (be32 n) else none

/-- `struct.pack '!i'` on a natural value: fails when out of the int32 range. -/
def packI32 (n : Nat) : Option (List Nat) :=
  if n < 2147483648 then some (be32 n) else none

/-- `struct.pack '!B'`: a single byte, fails outside 0..255. -/
def packU8 (n : Nat) : Option (List Nat) :=
  if n < 256 then some [n] else none

/-- `struct.pack '{n}s'`: truncate or zero-pad a byte string to exactly `n` bytes. -/
def packBytes (s : List Nat) (n : Nat) : List Nat :=
  s.take n ++ List.replicate (n - s.length) 0

/-- UTF-8 encoding of one Unicode code point. -/
def utf8Char (c : Nat) : List Nat :=
  if c < 128 then [c]
  else if c < 2048 then [192 + c / 64, 128 + c % 64]
  else if c < 65536 then [224 + c / 4096, 128 + c / 64 % 64, 128 + c % 64]
  else [240 + c / 262144, 128 + c / 4096 % 64, 128 + c / 64 % 64, 128 + c % 64]

/-- `str.encode('utf-8')` as a list of byte values. -/
def utf8Bytes (s : String) : List Nat :=
  (s.data.map (fun c => utf8Char c.toNat)).flatten

/-- Scanner for Python `str.replace(pat, rep)`: non-overlapping
left-to-right replacement of every occurrence of `pat` by `rep`.  The fuel
argument (instantiated with the string length, which bounds the number of
steps) only makes the recursion structural. -/
def pyReplaceFuel (pat rep : List Char) : Nat → List Char → List Char
  | 0, s => s
  | fuel + 1, s =>
    match s with
    | [] => []
    | c :: rest =>
      if pat ≠ [] ∧ pat.isPrefixOf (c :: rest) then
        rep ++ pyReplaceFuel pat rep fuel ((c :: rest).drop pat.length)
      else
        c :: pyReplaceFuel pat rep fuel rest

/-- Python `str.replace(pat, rep)` on character lists. -/
def pyReplace (s pat rep : List Char) : List Char :=
  pyReplaceFuel pat rep s.length s

/-- Does the string start with the POSIX separator (`b.startswith('/')`)? -/
def startsWithSlash (s : String) : Bool :=
  match s.data with
  | [] => false
  | c :: _ => c = '/'

/-- Does the string end with the POSIX separator? -/
def endsWithSlash (s : String) : Bool :=
  match s.data.getLast? with
  | some c => c = '/'
  | none => false

/-- `os.path.join(a, b)` with POSIX separator semantics (the platform the
module is modelled on): an absolute second component discards the first. -/
def pyJoin (a b : String) : String :=
  if startsWithSlash b then b
  else if a = "" ∨ endsWithSlash a then a ++ b
  else a ++ "/" ++ b

/-- Index of the last occurrence of character `c`, if any. -/
def rfindChar (cs : List Char) (c : Char) : Option Nat :=
  match cs with
  | [] => none
  | a :: rest =>
    match rfindChar rest c with
    | some i => some (i + 1)
    | none => if a = c then some 0 else none

/-- `os.path.basename` (POSIX): the part after the last slash. -/
def pyBasename (s : String) : String :=
  match rfindChar s.data '/' with
  | none => s
  | some i => String.mk (s.data.drop (i + 1))

/-- `os.path.dirname` (POSIX): the part before the last slash. -/
def pyDirname (s : String) : String :=
  match rfindChar s.data '/' with
  | none => ""
  | some i => String.mk (s.data.take i)

/-- The extension part of `os.path.splitext` (POSIX): the suffix from the
last dot, provided some non-dot character of the basename precedes it. -/
def splitextExt (s : String) : String :=
  let cs := s.data
  match rfindChar cs '.' with
  | none => ""
  | some d =>
    let start := match rfindChar cs '/' with
      | none => 0
      | some sepIdx => sepIdx + 1
    if start ≤ d ∧ ((cs.drop start).take (d - start)).any (fun c => c ≠ '.') then
      String.mk (cs.drop d)
    else ""

/-- Python `s[n:]` on strings. -/
def strDrop (s : String) (n : Nat) : String := String.mk (s.data.drop n)

/-- Split a character list on a separator character; the result is the
(always nonempty) list of components between separators. -/
def splitOnChar (c : Char) : List Char → List (List Char)
  | [] => [[]]
  | a :: rest =>
    if a = c then [] :: splitOnChar c rest
    else
      match splitOnChar c rest with
      | [] => [[a]]
      | x :: xs => (a :: x) :: xs

/-! ## Host binary patching (`repack_executable`, default non-Linux path)

The Python code opens the executable in `r+b` mode, seeks to
`offset = st_size - cookieTotal`, stream-copies the new archive over the
tail, and truncates at the resulting position. -/

/-- Overwrite `file` starting at position `off` with `data`, zero-filling
any gap when `off` is past the end (POSIX write-at-offset semantics). -/
def pyWriteAt (file : List Nat) (off : Nat) (data : List Nat) : List Nat :=
  file.take off ++ List.replicate (off - file.length) 0 ++ data ++
    file.drop (off + data.length)

/-- `fp.truncate()` at position `n` (only ever shrinks here). -/
def pyTruncateAt (file : List Nat) (n : Nat) : List Nat := file.take n

/-- `repack_executable`, default (non-section) platform path: the in-place
seek / stream-copy / truncate sequence on the host binary.  `cookieTotal`
is the `len` field (total archive length) parsed from the original cookie. -/
def repack_executable_patch (orig newArch : List Nat) (cookieTotal : Nat) : List Nat :=
  let offset := orig.length - cookieTotal
  pyTruncateAt (pyWriteAt orig offset newArch) (offset + newArch.length)

theorem repack_executable_patch_eq (orig newArch : List Nat) (cookieTotal : Nat) :
    repack_executable_patch orig newArch cookieTotal =
      orig.take (orig.length - cookieTotal) ++ newArch := by
  have hoff : orig.length - cookieTotal ≤ orig.length := Nat.sub_le _ _
  have hrep : orig.length - cookieTotal - orig.length = 0 := by omega
  have hlen : (orig.take (orig.length - cookieTotal)).length = orig.length - cookieTotal := by
    simp [List.length_take]
  simp only [repack_executable_patch, pyWriteAt, pyTruncateAt, hrep, List.replicate_zero,
    List.nil_append, List.append_assoc]
  rw [List.take_append_eq_append_take, hlen,
      List.take_of_length_le (by rw [hlen]; omega)]
  congr 1
  have h2 : orig.length - cookieTotal + newArch.length - (orig.length - cookieTotal)
      = newArch.length := by omega
  rw [h2, List.take_append_eq_append_take, Nat.sub_self, List.take_zero, List.append_nil,
      List.take_of_length_le (le_refl newArch.length)]

/-- Claim C5: patching the host binary (default, non-section platform path)
produces a file of length exactly `patchOffset + newArchiveLength`, where
`patchOffset` is the original size minus the cookie's total archive length,
with every byte before `patchOffset` unchanged — for any relative sizes of
the old and new archives. -/
theorem repack_executable_patch_correct (orig newArch : List Nat) (cookieTotal : Nat) :
    (repack_executable_patch orig newArch cookieTotal).length =
      (orig.length - cookieTotal) + newArch.length ∧
    ∀ i, i < orig.length - cookieTotal →
      (repack_executable_patch orig newArch cookieTotal)[i]? = orig[i]? := by
  rw [repack_executable_patch_eq]
  constructor
  · simp only [List.length_append, List.length_take]
    omega
  · intro i hi
    rw [List.getElem?_append, if_pos (by simp only [List.length_take]; omega),
        List.getElem?_take, if_pos hi]

theorem repack_executable_patch_correct_witness :
    (1 < ([1, 2, 3, 4, 5] : List Nat).length - 2) ∧
    (repack_executable_patch [1, 2, 3, 4, 5] [9, 9] 2)[1]? = ([1, 2, 3, 4, 5] : List Nat)[1]? :=
  ⟨by decide, (repack_executable_patch_correct [1, 2, 3, 4, 5] [9, 9] 2).2 1 (by decide)⟩

/-! ## Cookie locator (`CArchiveReader2.find_magic_pattern`) -/

/-- The pattern `pat` occurs in `stream` at offset `p`. -/
def occursAt (stream pat : List Nat) (p : Nat) : Prop :=
  p + pat.length ≤ stream.length ∧ (stream.drop p).take pat.length = pat

instance (stream pat : List Nat) (p : Nat) : Decidable (occursAt stream pat p) := by
  unfold occursAt; infer_instance

/-- Scan candidate start indices `k, k-1, …, 0` for the rightmost match. -/
def rfindAux (buf pat : List Nat) : Nat → Option Nat
  | 0 => if occursAt buf pat 0 then some 0 else none
  | k + 1 => if occursAt buf pat (k + 1) then some (k + 1) else rfindAux buf pat k

/-- Python `bytes.rfind`: the highest index at which `pat` occurs in `buf`
(`none` models the -1 result). -/
def pyRfind (buf pat : List Nat) : Option Nat :=
  if pat.length ≤ buf.length then rfindAux buf pat (buf.length - pat.length) else none

theorem rfindAux_some (buf pat : List Nat) (k j : Nat)
    (h : rfindAux buf pat k = some j) :
    occursAt buf pat j ∧ j ≤ k ∧ ∀ i, i ≤ k → occursAt buf pat i → i ≤ j := by
  induction k with
  | zero =>
    unfold rfindAux at h
    split at h
    · obtain rfl : (0 : Nat) = j := Option.some.inj h
      exact ⟨by assumption, le_refl _, fun i hi _ => hi⟩
    · exact Option.noConfusion h
  | succ k ih =>
    unfold rfindAux at h
    split at h
    · obtain rfl : k + 1 = j := Option.some.inj h
      exact ⟨by assumption, le_refl _, fun i hi _ => hi⟩
    · rename_i hno
      obtain ⟨h1, h2, h3⟩ := ih h
      refine ⟨h1, Nat.le_succ_of_le h2, fun i hi hocc => ?_⟩
      rcases Nat.lt_or_ge i (k + 1) with hlt | hge
      · exact h3 i (by omega) hocc
      · have heq : i = k + 1 := by omega
        subst heq
        exact absurd hocc hno

theorem rfindAux_none (buf pat : List Nat) (k : Nat)
    (h : rfindAux buf pat k = none) :
    ∀ i, i ≤ k → ¬ occursAt buf pat i := by
  induction k with
  | zero =>
    unfold rfindAux at h
    split at h
    · exact Option.noConfusion h
    · intro i hi
      obtain rfl : i = 0 := Nat.le_zero.mp hi
      assumption
  | succ k ih =>
    unfold rfindAux at h
    split at h
    · exact Option.noConfusion h
    · intro i hi
      rcases Nat.lt_or_ge i (k + 1) with hlt | hge
      · exact ih h i (by omega)
      · have : i = k + 1 := by omega
        rw [this]; assumption

theorem pyRfind_some (buf pat : List Nat) (j : Nat)
    (h : pyRfind buf pat = some j) :
    occursAt buf pat j ∧ ∀ i, occursAt buf pat i → i ≤ j := by
  unfold pyRfind at h
  split at h
  · obtain ⟨h1, _, h3⟩ := rfindAux_some buf pat _ j h
    refine ⟨h1, fun i hocc => h3 i ?_ hocc⟩
    obtain ⟨hle, _⟩ := hocc
    omega
  · exact Option.noConfusion h

theorem pyRfind_none (buf pat : List Nat)
    (h : pyRfind buf pat = none) :
    ∀ i, ¬ occursAt buf pat i := by
  unfold pyRfind at h
  split at h
  · intro i hocc
    have hle := hocc.1
    exact rfindAux_none buf pat _ h i (by omega) hocc
  · intro i hocc
    have hle := hocc.1
    omega

theorem pyRfind_nil (buf : List Nat) : pyRfind buf [] = some buf.length := by
  have hocc : ∀ k, k ≤ buf.length → occursAt buf [] k := by
    intro k hk
    exact ⟨by simpa using hk, by simp⟩
  unfold pyRfind
  rw [if_pos (by simp)]
  simp only [List.length_nil, Nat.sub_zero]
  cases hb : buf.length with
  | zero =>
    unfold rfindAux
    rw [if_pos (hb ▸ hocc 0 (by omega))]
  | succ k =>
    unfold rfindAux
    rw [if_pos (hb ▸ hocc (k + 1) (by omega))]

/-- The fixed chunk size of the backward scan. -/
def SEARCH_CHUNK_SIZE : Nat := 8192

/-- The `while` loop of `CArchiveReader2.find_magic_pattern`: `endPos` is the
exclusive end of the not-yet-excluded prefix; each step scans the chunk
`[endPos - 8192, endPos)` (clamped at 0) for the rightmost match and either
returns, gives up, or retreats with an overlap of `pat.length - 1` bytes. -/
def findMagicLoop (stream pat : List Nat) (endPos : Nat) : Option Nat :=
  if endPos < pat.length then none
  else if endPos - (endPos - SEARCH_CHUNK_SIZE) < pat.length then none
  else
    match h3 : pyRfind ((stream.drop (endPos - SEARCH_CHUNK_SIZE)).take
        (endPos - (endPos - SEARCH_CHUNK_SIZE))) pat with
    | some pos => some ((endPos - SEARCH_CHUNK_SIZE) + pos)
    | none => findMagicLoop stream pat ((endPos - SEARCH_CHUNK_SIZE) + pat.length - 1)
termination_by endPos
decreasing_by
  have hne : pat ≠ [] := by
    intro hnil
    rw [hnil, pyRfind_nil] at h3
    exact Option.noConfusion h3
  have hp : 0 < pat.length := List.length_pos.mpr hne
  simp only [SEARCH_CHUNK_SIZE] at *
  omega

/-- `CArchiveReader2.find_magic_pattern`: backward chunked scan of the whole
stream, starting from its end. -/
def find_magic_pattern (stream pat : List Nat) : Option Nat :=
  findMagicLoop stream pat stream.length

theorem occursAt_buf_iff (stream pat : List Nat) (startPos endPos i : Nat)
    (hse : startPos ≤ endPos) (hel : endPos ≤ stream.length) :
    occursAt ((stream.drop startPos).take (endPos - startPos)) pat i ↔
      (occursAt stream pat (startPos + i) ∧ startPos + i + pat.length ≤ endPos) := by
  have hbuflen : ((stream.drop startPos).take (endPos - startPos)).length
      = endPos - startPos := by
    simp only [List.length_take, List.length_drop]
    omega
  have hd : ((stream.drop startPos).take (endPos - startPos)).drop i
      = (stream.drop (startPos + i)).take (endPos - startPos - i) := by
    rw [List.drop_take, List.drop_drop]
  constructor
  · rintro ⟨hle, heq⟩
    rw [hbuflen] at hle
    have hmin : min pat.length (endPos - startPos - i) = pat.length := by omega
    rw [hd, List.take_take, hmin] at heq
    exact ⟨⟨by omega, heq⟩, by omega⟩
  · rintro ⟨⟨hle2, heq2⟩, hb⟩
    have hmin : min pat.length (endPos - startPos - i) = pat.length := by omega
    refine ⟨by rw [hbuflen]; omega, ?_⟩
    rw [hd, List.take_take, hmin]
    exact heq2

theorem findMagicLoop_correct (stream pat : List Nat)
    (hpl : pat.length ≤ SEARCH_CHUNK_SIZE) :
    ∀ endPos, endPos ≤ stream.length →
      (∀ q, occursAt stream pat q → q + pat.length ≤ endPos) →
      ((∀ p, findMagicLoop stream pat endPos = some p →
          occursAt stream pat p ∧ ∀ q, occursAt stream pat q → q ≤ p) ∧
        (findMagicLoop stream pat endPos = none → ∀ q, ¬ occursAt stream pat q)) := by
  intro endPos
  induction endPos using Nat.strong_induction_on with
  | _ endPos ih =>
    intro hend hinv
    rw [findMagicLoop]
    split
    · -- endPos < pat.length: the loop condition fails, no occurrence possible
      rename_i h1
      refine ⟨fun p hp => Option.noConfusion hp, fun _ q hq => ?_⟩
      have := hinv q hq
      omega
    · rename_i h1
      split
      · -- chunk smaller than the pattern: impossible when pat.length ≤ 8192
        rename_i h2
        exfalso
        simp only [SEARCH_CHUNK_SIZE] at h2 hpl
        omega
      · rename_i h2
        split
        · -- rightmost match found in the current chunk
          rename_i pos h3
          obtain ⟨hoccb, hmaxb⟩ := pyRfind_some _ _ _ h3
          have hse : endPos - SEARCH_CHUNK_SIZE ≤ endPos := Nat.sub_le _ _
          rw [occursAt_buf_iff stream pat _ endPos pos hse hend] at hoccb
          refine ⟨fun p hp => ?_, fun hnone => Option.noConfusion hnone⟩
          obtain rfl : (endPos - SEARCH_CHUNK_SIZE) + pos = p := Option.some.inj hp
          refine ⟨hoccb.1, fun q hq => ?_⟩
          rcases Nat.lt_or_ge q (endPos - SEARCH_CHUNK_SIZE) with hlt | hge
          · omega
          · have hq2 : occursAt ((stream.drop (endPos - SEARCH_CHUNK_SIZE)).take
                (endPos - (endPos - SEARCH_CHUNK_SIZE))) pat (q - (endPos - SEARCH_CHUNK_SIZE)) := by
              rw [occursAt_buf_iff stream pat _ endPos _ hse hend]
              have hqe : (endPos - SEARCH_CHUNK_SIZE) + (q - (endPos - SEARCH_CHUNK_SIZE)) = q := by
                omega
              rw [hqe]
              exact ⟨hq, by have := hinv q hq; omega⟩
            have := hmaxb _ hq2
            omega
        · -- no match in this chunk: recurse on the shrunken prefix
          rename_i h3
          have hne : pat ≠ [] := by
            intro hnil
            rw [hnil, pyRfind_nil] at h3
            exact Option.noConfusion h3
          have hp1 : 0 < pat.length := List.length_pos.mpr hne
          have hse : endPos - SEARCH_CHUNK_SIZE ≤ endPos := Nat.sub_le _ _
          have hdec : (endPos - SEARCH_CHUNK_SIZE) + pat.length - 1 < endPos := by
            simp only [SEARCH_CHUNK_SIZE] at *
            omega
          apply ih _ hdec (by omega)
          intro q hq
          have hqe := hinv q hq
          rcases Nat.lt_or_ge q (endPos - SEARCH_CHUNK_SIZE) with hlt | hge
          · omega
          · exfalso
            have hq2 : occursAt ((stream.drop (endPos - SEARCH_CHUNK_SIZE)).take
                (endPos - (endPos - SEARCH_CHUNK_SIZE))) pat (q - (endPos - SEARCH_CHUNK_SIZE)) := by
              rw [occursAt_buf_iff stream pat _ endPos _ hse hend]
              have hqe2 : (endPos - SEARCH_CHUNK_SIZE) + (q - (endPos - SEARCH_CHUNK_SIZE)) = q := by
                omega
              rw [hqe2]
              exact ⟨hq, by omega⟩
            exact pyRfind_none _ _ h3 _ hq2

/-- Claim C2 (amended: patterns no longer than the 8192-byte chunk): the
backward chunked scanner returns exactly the highest offset at which the
pattern occurs, and `none` exactly when the pattern does not occur. -/
theorem find_magic_pattern_correct (stream pat : List Nat)
    (hpl : pat.length ≤ SEARCH_CHUNK_SIZE) :
    (∀ p, find_magic_pattern stream pat = some p →
        occursAt stream pat p ∧ ∀ q, occursAt stream pat q → q ≤ p) ∧
    (find_magic_pattern stream pat = none → ∀ q, ¬ occursAt stream pat q) := by
  unfold find_magic_pattern
  exact findMagicLoop_correct stream pat hpl stream.length (le_refl _) (fun q hq => hq.1)

theorem find_magic_pattern_correct_witness :
    (([6, 7] : List Nat).length ≤ SEARCH_CHUNK_SIZE) ∧
    ((∀ p, find_magic_pattern [5, 6, 7, 6, 7] [6, 7] = some p →
        occursAt [5, 6, 7, 6, 7] [6, 7] p ∧ ∀ q, occursAt [5, 6, 7, 6, 7] [6, 7] q → q ≤ p) ∧
      (find_magic_pattern [5, 6, 7, 6, 7] [6, 7] = none →
        ∀ q, ¬ occursAt [5, 6, 7, 6, 7] [6, 7] q)) :=
  ⟨by decide, find_magic_pattern_correct [5, 6, 7, 6, 7] [6, 7] (by decide)⟩

/-- Claim C2 counterexample: for a pattern longer than the 8192-byte search
chunk the scanner reports "not found" even though the pattern occurs in the
stream (here at offset 0), so the claim is false for arbitrary patterns. -/
theorem find_magic_pattern_long_pattern_missed :
    find_magic_pattern (List.replicate 8193 0) (List.replicate 8193 0) = none ∧
    occursAt (List.replicate 8193 0) (List.replicate 8193 0) 0 := by
  constructor
  · rw [find_magic_pattern, findMagicLoop,
        if_neg (Nat.lt_irrefl _),
        if_pos (by rw [List.length_replicate]; norm_num [SEARCH_CHUNK_SIZE])]
  · refine ⟨by simp only [List.length_replicate]; omega, ?_⟩
    rw [List.drop_zero, List.length_replicate, List.take_replicate, Nat.min_self]

/-! ## Outer TOC serialization (`CArchiveWriterLocal._serialize_toc`) -/

/-- `struct.calcsize('!iIIIBB')`: the fixed header of a TOC entry record. -/
def TOC_ENTRY_LENGTH : Nat := 18

/-- One in-memory CArchive TOC entry as produced by the writer methods:
`(data_offset, compressed_length, data_length, compress, typecode, name)`. -/
structure TocRaw where
  dataOffset : Nat
  storedLength : Nat
  dataLength : Nat
  compress : Nat
  typecode : Char
  name : String
deriving DecidableEq

/-- One iteration of the loop in `CArchiveWriterLocal._serialize_toc`.
`stale` is the current value of the Python local `padding_length`: `none`
before its first assignment, so that reading it then models the
`UnboundLocalError`.  The aligned branch (`entry_length % 16 == 0`) sets
`name_padding = b'\x00'` but does not assign `padding_length`, and the
subsequent `name_length += padding_length` uses whatever value is in
`stale` — the embedding reproduces the source faithfully, stale value and
all.  Returns the serialized record and the new `padding_length`. -/
def serialize_toc_entry (e : TocRaw) (stale : Option Nat) :
    Except String (List Nat × Nat) :=
  let name := utf8Bytes e.name
  let nameLength0 := name.length + 1
  let entryLength := TOC_ENTRY_LENGTH + nameLength0
  let padded : Except String (List Nat × Nat) :=
    if entryLength % 16 = 0 then
      match stale with
      | none => Except.error "UnboundLocalError"
      | some p => Except.ok ([0], p)
    else
      Except.ok (List.replicate (16 - entryLength % 16) 0, 16 - entryLength % 16)
  match padded with
  | Except.error err => Except.error err
  | Except.ok (namePadding, p) =>
    let nameLength := nameLength0 + p
    match packI32 (TOC_ENTRY_LENGTH + nameLength), packU32 e.dataOffset,
        packU32 e.storedLength, packU32 e.dataLength, packU8 e.compress,
        packU8 e.typecode.toNat with
    | some f1, some f2, some f3, some f4, some f5, some f6 =>
      Except.ok (f1 ++ f2 ++ f3 ++ f4 ++ f5 ++ f6 ++
        packBytes (name ++ namePadding) nameLength, p)
    | _, _, _, _, _, _ => Except.error "struct.error"

/-- The loop of `_serialize_toc`, threading the Python local
`padding_length` from one iteration to the next. -/
def serialize_toc_go (toc : List TocRaw) (stale : Option Nat) :
    Except String (List (List Nat)) :=
  match toc with
  | [] => Except.ok []
  | e :: rest =>
    match serialize_toc_entry e stale with
    | Except.error err => Except.error err
    | Except.ok (bytes, p) =>
      match serialize_toc_go rest (some p) with
      | Except.error err => Except.error err
      | Except.ok l => Except.ok (bytes :: l)

/-- `CArchiveWriterLocal._serialize_toc` as the list of per-entry records
(the Python `serialized_toc` list before the final join). -/
def serialize_toc_entries (toc : List TocRaw) : Except String (List (List Nat)) :=
  serialize_toc_go toc none

/-- `CArchiveWriterLocal._serialize_toc`: the final `b''.join(...)`. -/
def serialize_toc (toc : List TocRaw) : Except String (List Nat) :=
  match serialize_toc_entries toc with
  | Except.error err => Except.error err
  | Except.ok l => Except.ok l.flatten

/-- Claim C1 (code bug evidence): the source intends every serialized TOC
entry to be 16-byte aligned, with a full 16-byte pad block appended when the
unpadded record is already aligned — but the aligned branch never assigns
`padding_length`.  A first entry whose unpadded record length is a multiple
of 16 (here a 13-byte name: 18 + 14 = 32) hits the unbound local and the
serializer fails; after a preceding entry that left `padding_length = 12`,
the aligned entry is emitted with the stale 12-byte padding, producing a
record of length 44 — not a multiple of 16. -/
theorem serialize_toc_alignment_bug :
    serialize_toc_entries [⟨0, 3, 3, 0, 'b', "aaaaaaaaaaaaa"⟩] =
      Except.error "UnboundLocalError" ∧
    (serialize_toc_entries
        [⟨0, 3, 3, 0, 'b', "a"⟩, ⟨3, 3, 3, 0, 'b', "aaaaaaaaaaaaa"⟩]).map
      (fun l => l.map List.length) = Except.ok [32, 44] ∧
    44 % 16 ≠ 0 := by
  refine ⟨by rfl, by rfl, by decide⟩

/-! ## Inner-archive extraction paths (`extract_pyzarchive`) -/

/-- PYZ TOC type code: plain module. -/
def PYZ_ITEM_MODULE : Nat := 0
/-- PYZ TOC type code: package. -/
def PYZ_ITEM_PKG : Nat := 1
/-- PYZ TOC type code: data blob. -/
def PYZ_ITEM_DATA : Nat := 2
/-- PYZ TOC type code: PEP-420 namespace package. -/
def PYZ_ITEM_NSPKG : Nat := 3

/-- Path suffix for extracted contents. -/
def EXTRACT_SUFFIX : String := "_extracted"

/-- `name.replace('..', '__').replace('.', os.path.sep)` from
`extract_pyzarchive` (and `repack_pyzarchive`), POSIX separator. -/
def sanitizeEntryName (name : String) : List Char :=
  pyReplace (pyReplace name.data ['.', '.'] ['_', '_']) ['.'] ['/']

/-- The file path written by `extract_pyzarchive` for one inner entry
(`none` for entry types that are skipped by `continue`). -/
def pyzExtractFilepath (dirname : String) (typecode : Nat) (name : String) :
    Option String :=
  let filename := String.mk (sanitizeEntryName name)
  if typecode = PYZ_ITEM_PKG then
    some (pyJoin (pyJoin dirname filename) "__init__.pyc")
  else if typecode = PYZ_ITEM_MODULE then
    some (pyJoin dirname (filename ++ ".pyc"))
  else if typecode = PYZ_ITEM_DATA then
    some (pyJoin dirname filename)
  else none

/-- Glue two component lists at the boundary, as splitting an append does. -/
def glueSplits (xs ys : List (List Char)) : List (List Char) :=
  match xs with
  | [] => ys
  | [x] =>
    match ys with
    | [] => [x]
    | y :: ys2 => (x ++ y) :: ys2
  | x :: xs2 => x :: glueSplits xs2 ys

theorem splitOnChar_ne_nil (c : Char) (l : List Char) : splitOnChar c l ≠ [] := by
  cases l with
  | nil => simp [splitOnChar]
  | cons a rest =>
    unfold splitOnChar
    split
    · simp
    · split <;> simp

theorem splitOnChar_append (c : Char) (a b : List Char) :
    splitOnChar c (a ++ b) = glueSplits (splitOnChar c a) (splitOnChar c b) := by
  induction a with
  | nil =>
    simp only [List.nil_append, splitOnChar]
    cases hys : splitOnChar c b with
    | nil => exact absurd hys (splitOnChar_ne_nil c b)
    | cons y ys2 => simp [glueSplits]
  | cons ch rest ih =>
    by_cases hc : ch = c
    · have hL : splitOnChar c (ch :: (rest ++ b)) = [] :: splitOnChar c (rest ++ b) := by
        rw [splitOnChar.eq_2, if_pos hc]
      have hR : splitOnChar c (ch :: rest) = [] :: splitOnChar c rest := by
        rw [splitOnChar.eq_2, if_pos hc]
      rw [List.cons_append, hL, hR, ih]
      cases hsr : splitOnChar c rest with
      | nil => exact absurd hsr (splitOnChar_ne_nil c rest)
      | cons x xs => rfl
    · have hL : splitOnChar c (ch :: (rest ++ b)) =
          match splitOnChar c (rest ++ b) with
          | [] => [[ch]]
          | x :: xs => (ch :: x) :: xs := by
        rw [splitOnChar.eq_2, if_neg hc]
      have hR : splitOnChar c (ch :: rest) =
          match splitOnChar c rest with
          | [] => [[ch]]
          | x :: xs => (ch :: x) :: xs := by
        rw [splitOnChar.eq_2, if_neg hc]
      rw [List.cons_append, hL, hR, ih]
      cases hsr : splitOnChar c rest with
      | nil => exact absurd hsr (splitOnChar_ne_nil c rest)
      | cons x xs =>
        cases xs with
        | nil =>
          cases hys : splitOnChar c b with
          | nil => exact absurd hys (splitOnChar_ne_nil c b)
          | cons y ys2 => simp [glueSplits]
        | cons w ws => rfl

theorem mem_glueSplits (xs ys : List (List Char)) (comp : List Char)
    (h : comp ∈ glueSplits xs ys) :
    comp ∈ xs ∨ comp ∈ ys ∨ ∃ x y, x ∈ xs ∧ y ∈ ys ∧ comp = x ++ y := by
  induction xs with
  | nil => exact Or.inr (Or.inl h)
  | cons x xs2 ih =>
    cases xs2 with
    | nil =>
      cases ys with
      | nil =>
        simp only [glueSplits] at h
        exact Or.inl h
      | cons y ys2 =>
        simp only [glueSplits] at h
        rcases List.mem_cons.mp h with heq | hmem
        · exact Or.inr (Or.inr ⟨x, y, List.mem_singleton.mpr rfl,
            List.mem_cons_self _ _, heq⟩)
        · exact Or.inr (Or.inl (List.mem_cons_of_mem _ hmem))
    | cons w ws =>
      simp only [glueSplits] at h
      rcases List.mem_cons.mp h with heq | hmem
      · exact Or.inl (heq ▸ List.mem_cons_self _ _)
      · rcases ih hmem with h1 | h2 | ⟨x2, y2, hx2, hy2, hxy⟩
        · exact Or.inl (List.mem_cons_of_mem _ h1)
        · exact Or.inr (Or.inl h2)
        · exact Or.inr (Or.inr ⟨x2, y2, List.mem_cons_of_mem _ hx2, hy2, hxy⟩)

theorem mem_splitOnChar_subset (c : Char) (l comp : List Char)
    (h : comp ∈ splitOnChar c l) : ∀ a ∈ comp, a ∈ l := by
  induction l generalizing comp with
  | nil =>
    simp only [splitOnChar, List.mem_singleton] at h
    subst h
    simp
  | cons ch rest ih =>
    unfold splitOnChar at h
    split at h
    · rcases List.mem_cons.mp h with heq | hmem
      · subst heq; simp
      · intro a ha
        exact List.mem_cons_of_mem _ (ih comp hmem a ha)
    · split at h
      · rename_i heq
        exact absurd heq (splitOnChar_ne_nil c rest)
      · rename_i x xs heq
        rcases List.mem_cons.mp h with hceq | hmem
        · subst hceq
          intro a ha
          rcases List.mem_cons.mp ha with ha1 | ha2
          · exact ha1 ▸ List.mem_cons_self _ _
          · have hx : x ∈ splitOnChar c rest := heq ▸ List.mem_cons_self _ _
            exact List.mem_cons_of_mem _ (ih x hx a ha2)
        · have hxs : comp ∈ splitOnChar c rest := heq ▸ List.mem_cons_of_mem _ hmem
          intro a ha
          exact List.mem_cons_of_mem _ (ih comp hxs a ha)

/-- A path fragment is good when none of its components can be (or complete
a boundary component into) a `".."` parent reference: each component either
contains no dot, or is longer than two characters. -/
def goodPathPiece (l : List Char) : Prop :=
  ∀ comp ∈ splitOnChar '/' l, ('.' ∉ comp) ∨ 2 < comp.length

instance (l : List Char) : Decidable (goodPathPiece l) := by
  unfold goodPathPiece; infer_instance

theorem goodPathPiece_append (a b : List Char)
    (ha : goodPathPiece a) (hb : goodPathPiece b) : goodPathPiece (a ++ b) := by
  intro comp hmem
  rw [splitOnChar_append] at hmem
  rcases mem_glueSplits _ _ _ hmem with h1 | h2 | ⟨x, y, hx, hy, hxy⟩
  · exact ha comp h1
  · exact hb comp h2
  · subst hxy
    rcases ha x hx with hxd | hxl
    · rcases hb y hy with hyd | hyl
      · left
        intro hd
        rcases List.mem_append.mp hd with hm | hm
        · exact hxd hm
        · exact hyd hm
      · right; simp only [List.length_append]; omega
    · right; simp only [List.length_append]; omega

theorem goodPathPiece_of_not_mem (l : List Char) (h : '.' ∉ l) : goodPathPiece l := by
  intro comp hmem
  left
  intro hd
  exact h (mem_splitOnChar_subset _ _ _ hmem _ hd)

theorem not_dotdot_of_good (l : List Char) (h : goodPathPiece l) :
    ['.', '.'] ∉ splitOnChar '/' l := by
  intro hmem
  rcases h _ hmem with hd | hl
  · exact hd (by simp)
  · simp at hl

theorem dotdot_mem_append (d t : List Char) (ht : goodPathPiece t)
    (h : ['.', '.'] ∈ splitOnChar '/' (d ++ t)) :
    ['.', '.'] ∈ splitOnChar '/' d := by
  rw [splitOnChar_append] at h
  rcases mem_glueSplits _ _ _ h with h1 | h2 | ⟨x, y, hx, hy, hxy⟩
  · exact h1
  · exact absurd h2 (not_dotdot_of_good t ht)
  · rcases ht y hy with hyd | hyl
    · have hy0 : y = [] := by
        cases y with
        | nil => rfl
        | cons a ys =>
          exfalso
          apply hyd
          have ha : a ∈ x ++ (a :: ys) := by simp
          rw [← hxy] at ha
          have haeq : a = '.' := by
            rcases List.mem_cons.mp ha with h1 | h1
            · exact h1
            · simpa using h1
          subst haeq
          simp
      subst hy0
      rw [List.append_nil] at hxy
      subst hxy
      exact hx
    · exfalso
      have hlen := congrArg List.length hxy
      simp only [List.length_append, List.length_cons, List.length_nil] at hlen
      omega

theorem not_mem_pyReplaceFuel_dot (fuel : Nat) :
    ∀ s : List Char, s.length ≤ fuel → '.' ∉ pyReplaceFuel ['.'] ['/'] fuel s := by
  induction fuel with
  | zero =>
    intro s hs
    have hnil : s = [] := List.eq_nil_of_length_eq_zero (by omega)
    subst hnil
    simp [pyReplaceFuel]
  | succ n ih =>
    intro s hs
    cases s with
    | nil => simp [pyReplaceFuel]
    | cons c rest =>
      rw [pyReplaceFuel]
      split
      · rename_i hpre
        intro hmem
        rcases List.mem_append.mp hmem with h | h
        · simp at h
        · have hdrop : ((c :: rest).drop (['.'] : List Char).length).length ≤ n := by
            simp only [List.length_drop, List.length_cons, List.length_singleton]
            simp only [List.length_cons] at hs
            omega
          exact ih _ hdrop h
      · rename_i hpre
        intro hmem
        rcases List.mem_cons.mp hmem with hc | h
        · exact hpre ⟨by simp, by rw [← hc]; simp [List.isPrefixOf]⟩
        · refine ih rest ?_ h
          simp only [List.length_cons] at hs
          omega

theorem sanitize_no_dot (name : String) : '.' ∉ sanitizeEntryName name := by
  unfold sanitizeEntryName pyReplace
  exact not_mem_pyReplaceFuel_dot _ _ (le_refl _)

theorem pyJoin_cases (a b : String) :
    pyJoin a b = b ∨ pyJoin a b = a ++ b ∨ pyJoin a b = a ++ "/" ++ b := by
  unfold pyJoin
  split_ifs <;> simp

/-- Any `".."` component of `pyJoin d t` with a good tail `t` must already
be a component of `d`. -/
theorem dotdot_join (d t : String) (ht : goodPathPiece t.data) :
    ∀ comp ∈ splitOnChar '/' (pyJoin d t).data, comp = ['.', '.'] →
      comp ∈ splitOnChar '/' d.data := by
  intro comp hmem hcomp
  subst hcomp
  rcases pyJoin_cases d t with h | h | h <;> rw [h] at hmem
  · exact absurd hmem (not_dotdot_of_good _ ht)
  · rw [String.data_append] at hmem
    exact dotdot_mem_append _ _ ht hmem
  · rw [String.data_append, String.data_append, List.append_assoc] at hmem
    refine dotdot_mem_append _ _ ?_ hmem
    exact goodPathPiece_append _ _ (by decide) ht

/-- Claim C8: during extraction every entry name has `".."` replaced by
`"__"` before dots become path separators, so the files written by
`extract_pyzarchive` never gain a parent-directory (`".."`) component from
an entry name: any `".."` component of the written path is already a
component of the extraction directory itself. -/
theorem pyz_extract_no_dotdot (dirname name : String) (typecode : Nat) (p : String)
    (hp : pyzExtractFilepath dirname typecode name = some p) :
    ∀ comp ∈ splitOnChar '/' p.data, comp = ['.', '.'] →
      comp ∈ splitOnChar '/' dirname.data := by
  have gfn : goodPathPiece (String.mk (sanitizeEntryName name)).data :=
    goodPathPiece_of_not_mem _ (sanitize_no_dot name)
  unfold pyzExtractFilepath at hp
  split_ifs at hp
  · obtain rfl : _ = p := Option.some.inj hp
    intro comp hmem hcomp
    have h1 := dotdot_join (pyJoin dirname (String.mk (sanitizeEntryName name)))
      "__init__.pyc" (by decide) comp hmem hcomp
    exact dotdot_join dirname _ gfn comp h1 hcomp
  · obtain rfl : _ = p := Option.some.inj hp
    intro comp hmem hcomp
    refine dotdot_join dirname _ ?_ comp hmem hcomp
    rw [String.data_append]
    exact goodPathPiece_append _ _ gfn (by decide)
  · obtain rfl : _ = p := Option.some.inj hp
    exact dotdot_join dirname _ gfn

theorem pyz_extract_no_dotdot_witness :
    (pyzExtractFilepath "out" PYZ_ITEM_MODULE "a..b.c" = some "out/a__b/c.pyc") ∧
    ∀ comp ∈ splitOnChar '/' ("out/a__b/c.pyc" : String).data, comp = ['.', '.'] →
      comp ∈ splitOnChar '/' ("out" : String).data :=
  ⟨by decide, pyz_extract_no_dotdot "out" "a..b.c" PYZ_ITEM_MODULE _ (by decide)⟩

/-! ## The outer archive writer (`CArchiveWriterLocal`) -/

/-- Result of the original reader's `extract`: historical PyInstaller
versions return either raw bytes or an `(ispkg, data)` tuple. -/
inductive ExtractData where
  | bytes (d : List Nat)
  | tup (ispkg : Nat) (d : List Nat)

/-- `fix_extract`: `data[1] if isinstance(data, tuple) else data`. -/
def fix_extract : ExtractData → List Nat
  | ExtractData.bytes d => d
  | ExtractData.tup _ d => d

/-- External collaborators of the writer: compression, marshal, the
code-object pipeline, the filesystem, the original archive handle, and
platform constants.  All are opaque to the module and therefore
parameters of the embedding. -/
structure Ext where
  Code : Type
  zlib : List Nat → List Nat
  zlibStream : List Nat → List Nat
  extract : String → ExtractData
  readFile : String → List Nat
  getCodeObject : String → String → Code
  stripPaths : Code → Code
  marshalDumps : Code → List Nat
  marshalLoads : List Nat → Code
  bytecodeMagic : List Nat
  normpath : String → String
  isWin : Bool
  pathSep : Char
  pyvers : Nat

/-- A logical TOC entry fed to the writer:
`(dest_name, src_name, compress, typecode)`. -/
structure LogicalEntry where
  dest : String
  source : Option String
  compress : Nat
  typecode : Char
deriving DecidableEq

/-- `CArchiveWriterLocal._write_blob`: append the (optionally compressed)
blob to the file and return the corresponding TOC entry. -/
def write_blob (E : Ext) (file blob : List Nat) (destName : String)
    (typecode : Char) (compress : Nat) : List Nat × TocRaw :=
  let out := if compress ≠ 0 then E.zlib blob else blob
  (file ++ out, ⟨file.length, out.length, blob.length, compress, typecode, destName⟩)

/-- `CArchiveWriterLocal._write_file`: stream-copy a file from disk into
the archive (chunked compressor modelled by `zlibStream`). -/
def write_file (E : Ext) (file : List Nat) (srcName destName : String)
    (typecode : Char) (compress : Nat) : List Nat × TocRaw :=
  let data := E.readFile srcName
  let out := if compress ≠ 0 then E.zlibStream data else data
  (file ++ out, ⟨file.length, out.length, data.length, compress, typecode, destName⟩)

/-- The destination-name normalization at the top of `_write_entry`
(`os.path.normpath` plus the MSYS backslash fixup). -/
def destNameOf (E : Ext) (dest : String) : String :=
  let d := E.normpath dest
  if E.isWin ∧ E.pathSep = '/' then String.mk (pyReplace d.data [E.pathSep] ['\\'])
  else d

/-- `CArchiveWriterLocal._write_entry`: dispatch on the type code.  The
`assert data[:4] == BYTECODE_MAGIC` is modelled as an error result. -/
def write_entry (E : Ext) (file : List Nat) (dest0 src : String)
    (compress : Nat) (typecode : Char) : Except String (List Nat × TocRaw) :=
  let dest := destNameOf E dest0
  if typecode = 'o' then
    Except.ok (write_blob E file [] dest typecode 0)
  else if typecode = 'd' then
    Except.ok (write_blob E file [] (src ++ ":" ++ dest) typecode 0)
  else if typecode = 's' then
    Except.ok (write_blob E file
      (E.marshalDumps (E.stripPaths (E.getCodeObject dest src))) dest typecode compress)
  else if typecode = 'm' ∨ typecode = 'M' then
    let data := E.readFile src
    if data.take 4 = E.bytecodeMagic then
      Except.ok (write_blob E file
        (E.marshalDumps (E.stripPaths (E.marshalLoads (data.drop 16)))) dest typecode
        compress)
    else Except.error "AssertionError: bytecode magic mismatch"
  else Except.ok (write_file E file src dest typecode compress)

/-- The entry loop of `CArchiveWriterLocal.__init__`: entries without a
replacement source are copied raw from the original archive, the others go
through `_write_entry`; TOC entries are collected in order. -/
def write_entries_loop (E : Ext) :
    List LogicalEntry → List Nat → List TocRaw →
    Except String (List Nat × List TocRaw)
  | [], file, toc => Except.ok (file, toc)
  | e :: rest, file, toc =>
    match e.source with
    | none =>
      let ft := write_blob E file (fix_extract (E.extract e.dest)) e.dest e.typecode
        e.compress
      write_entries_loop E rest ft.1 (toc ++ [ft.2])
    | some src =>
      match write_entry E file e.dest src e.compress e.typecode with
      | Except.error err => Except.error err
      | Except.ok ft => write_entries_loop E rest ft.1 (toc ++ [ft.2])

/-- `b'MEI\014\013\012\013\016'`. -/
def COOKIE_MAGIC : List Nat := [77, 69, 73, 12, 11, 10, 11, 14]

/-- `struct.calcsize('!8sIIii64s')`. -/
def COOKIE_LENGTH : Nat := 88

/-- `struct.pack(_COOKIE_FORMAT, magic, archive_length, toc_offset,
toc_length, pyvers, pylib_name)`. -/
def pack_cookie (archiveLength tocOffset tocLength pyvers : Nat)
    (pylib : List Nat) : Option (List Nat) :=
  match packU32 archiveLength, packU32 tocOffset, packI32 tocLength,
      packI32 pyvers with
  | some f1, some f2, some f3, some f4 =>
    some (packBytes COOKIE_MAGIC 8 ++ f1 ++ f2 ++ f3 ++ f4 ++ packBytes pylib 64)
  | _, _, _, _ => none

/-- The values produced by one run of `CArchiveWriterLocal.__init__`: the
written file and the quantities that go into the cookie. -/
structure WriterResult where
  file : List Nat
  toc : List TocRaw
  tocOffset : Nat
  tocLength : Nat
  archiveLength : Nat
deriving DecidableEq

/-- `CArchiveWriterLocal.__init__`: write all entries' data, serialize and
append the TOC, then compute and append the cookie. -/
def carchive_writer (E : Ext) (entries : List LogicalEntry) (pylib : List Nat) :
    Except String WriterResult :=
  match write_entries_loop E entries [] [] with
  | Except.error err => Except.error err
  | Except.ok (dataFile, toc) =>
    let tocOffset := dataFile.length
    match serialize_toc toc with
    | Except.error err => Except.error err
    | Except.ok tocData =>
      let tocLength := tocData.length
      let archiveLength := tocOffset + tocLength + COOKIE_LENGTH
      match pack_cookie archiveLength tocOffset tocLength E.pyvers pylib with
      | none => Except.error "struct.error"
      | some cookieData =>
        Except.ok ⟨dataFile ++ tocData ++ cookieData, toc, tocOffset, tocLength,
          archiveLength⟩

theorem write_blob_len (E : Ext) (file blob : List Nat) (destName : String)
    (tc : Char) (cf : Nat) :
    (write_blob E file blob destName tc cf).1.length =
      file.length + (write_blob E file blob destName tc cf).2.storedLength := by
  unfold write_blob
  simp [List.length_append]

theorem write_file_len (E : Ext) (file : List Nat) (srcName destName : String)
    (tc : Char) (cf : Nat) :
    (write_file E file srcName destName tc cf).1.length =
      file.length + (write_file E file srcName destName tc cf).2.storedLength := by
  unfold write_file
  simp [List.length_append]

theorem write_entry_appends (E : Ext) (file : List Nat) (dest src : String)
    (cf : Nat) (tc : Char) (ft : List Nat × TocRaw)
    (h : write_entry E file dest src cf tc = Except.ok ft) :
    ft.1.length = file.length + ft.2.storedLength := by
  simp only [write_entry] at h
  split_ifs at h
  · rw [← Except.ok.inj h]; exact write_blob_len _ _ _ _ _ _
  · rw [← Except.ok.inj h]; exact write_blob_len _ _ _ _ _ _
  · rw [← Except.ok.inj h]; exact write_blob_len _ _ _ _ _ _
  · rw [← Except.ok.inj h]; exact write_blob_len _ _ _ _ _ _
  · rw [← Except.ok.inj h]; exact write_file_len _ _ _ _ _ _

theorem write_entries_loop_length (E : Ext) (entries : List LogicalEntry) :
    ∀ file toc f2 toc2,
      write_entries_loop E entries file toc = Except.ok (f2, toc2) →
      ∃ tocNew, toc2 = toc ++ tocNew ∧
        f2.length = file.length + (tocNew.map (fun t => t.storedLength)).sum := by
  induction entries with
  | nil =>
    intro file toc f2 toc2 h
    unfold write_entries_loop at h
    have h2 := Except.ok.inj h
    injection h2 with ha hb
    subst ha
    subst hb
    exact ⟨[], by simp, by simp⟩
  | cons e rest ih =>
    intro file toc f2 toc2 h
    unfold write_entries_loop at h
    split at h
    · obtain ⟨tocNew, htoc, hlen⟩ := ih _ _ _ _ h
      refine ⟨(write_blob E file (fix_extract (E.extract e.dest)) e.dest e.typecode
        e.compress).2 :: tocNew, ?_, ?_⟩
      · rw [htoc]; simp
      · rw [hlen, write_blob_len]
        simp only [List.map_cons, List.sum_cons]
        omega
    · split at h
      · exact Except.noConfusion h
      · rename_i ft heq
        obtain ⟨tocNew, htoc, hlen⟩ := ih _ _ _ _ h
        refine ⟨ft.2 :: tocNew, ?_, ?_⟩
        · rw [htoc]; simp
        · rw [hlen, write_entry_appends E file e.dest _ e.compress e.typecode ft heq]
          simp only [List.map_cons, List.sum_cons]
          omega

theorem packBytes_length (s : List Nat) (n : Nat) : (packBytes s n).length = n := by
  unfold packBytes
  simp only [List.length_append, List.length_take, List.length_replicate]
  omega

theorem packU32_some_length (n : Nat) (l : List Nat) (h : packU32 n = some l) :
    l.length = 4 := by
  unfold packU32 at h
  split at h
  · rw [← Option.some.inj h]; rfl
  · exact Option.noConfusion h

theorem packI32_some_length (n : Nat) (l : List Nat) (h : packI32 n = some l) :
    l.length = 4 := by
  unfold packI32 at h
  split at h
  · rw [← Option.some.inj h]; rfl
  · exact Option.noConfusion h

theorem pack_cookie_length (a b c d : Nat) (pylib cookie : List Nat)
    (h : pack_cookie a b c d pylib = some cookie) : cookie.length = COOKIE_LENGTH := by
  unfold pack_cookie at h
  split at h
  · rename_i f1 f2 f3 f4 h1 h2 h3 h4
    rw [← Option.some.inj h]
    simp only [List.length_append, packBytes_length,
      packU32_some_length _ _ h1, packU32_some_length _ _ h2,
      packI32_some_length _ _ h3, packI32_some_length _ _ h4, COOKIE_LENGTH]
  · exact Option.noConfusion h

/-- Claim C3: after the writer rebuilds an archive from any logical TOC,
the cookie satisfies `totalLength = tocOffset + tocLength + cookieSize`,
and the recorded `tocOffset` equals the total number of data bytes written
for all entries before the TOC (the sum of the stored lengths of the TOC
entries); in addition, the written file really is `totalLength` bytes. -/
theorem carchive_writer_cookie (E : Ext) (entries : List LogicalEntry)
    (pylib : List Nat) (r : WriterResult)
    (h : carchive_writer E entries pylib = Except.ok r) :
    r.archiveLength = r.tocOffset + r.tocLength + COOKIE_LENGTH ∧
    r.tocOffset = (r.toc.map (fun t => t.storedLength)).sum ∧
    r.file.length = r.archiveLength := by
  simp only [carchive_writer] at h
  split at h
  · exact Except.noConfusion h
  · rename_i dataFile toc heq1
    split at h
    · exact Except.noConfusion h
    · rename_i tocData heq2
      split at h
      · exact Except.noConfusion h
      · rename_i cookieData heq3
        obtain rfl := Except.ok.inj h
        refine ⟨rfl, ?_, ?_⟩
        · obtain ⟨tocNew, htoc, hlen⟩ := write_entries_loop_length E entries _ _ _ _ heq1
          simp only [List.nil_append] at htoc
          subst htoc
          simpa using hlen
        · simp only [List.length_append, pack_cookie_length _ _ _ _ _ _ heq3]

/-- A concrete external environment used by witnesses: identity compressor,
identity marshal pipeline, one fixed 17-byte file with a 4-byte magic. -/
def extWitness : Ext where
  Code := List Nat
  zlib := fun l => l
  zlibStream := fun l => l
  extract := fun _ => ExtractData.bytes [1, 2, 3]
  readFile := fun _ => [1, 2, 3, 4] ++ List.replicate 12 0 ++ [42]
  getCodeObject := fun _ _ => []
  stripPaths := fun c => c
  marshalDumps := fun c => c
  marshalLoads := fun d => d
  bytecodeMagic := [1, 2, 3, 4]
  normpath := fun s => s
  isWin := false
  pathSep := '/'
  pyvers := 312

/-- The concrete writer output for the witness of the cookie theorem. -/
def writerWitnessResult : WriterResult :=
  ⟨[1, 2, 3] ++
      ([0, 0, 0, 32, 0, 0, 0, 0, 0, 0, 0, 3, 0, 0, 0, 3, 0, 98, 97] ++
        List.replicate 13 0) ++
      ([77, 69, 73, 12, 11, 10, 11, 14, 0, 0, 0, 123, 0, 0, 0, 3, 0, 0, 0, 32,
          0, 0, 1, 56, 112] ++ List.replicate 63 0),
    [⟨0, 3, 3, 0, 'b', "a"⟩], 3, 32, 123⟩

theorem carchive_writer_cookie_witness :
    carchive_writer extWitness [⟨"a", none, 0, 'b'⟩] [112] =
      Except.ok writerWitnessResult ∧
    (writerWitnessResult.archiveLength =
        writerWitnessResult.tocOffset + writerWitnessResult.tocLength + COOKIE_LENGTH ∧
      writerWitnessResult.tocOffset =
        (writerWitnessResult.toc.map (fun t => t.storedLength)).sum ∧
      writerWitnessResult.file.length = writerWitnessResult.archiveLength) :=
  ⟨by rfl, carchive_writer_cookie extWitness [⟨"a", none, 0, 'b'⟩] [112]
    writerWitnessResult (by rfl)⟩

/-- The bytes stored for a pythonModule / pythonPackage entry rebuilt from
a replacement compiled-bytecode file: skip the fixed 16-byte header,
deserialize, strip embedded paths, re-serialize. -/
def pycBlob (E : Ext) (src : String) : List Nat :=
  E.marshalDumps (E.stripPaths (E.marshalLoads ((E.readFile src).drop 16)))

/-- Claim C4: for a pythonModule ('m') or pythonPackage ('M') entry with a
replacement compiled-bytecode file, the writer fails when the file's first
4 bytes differ from the expected bytecode magic; otherwise it skips the
16-byte header, deserializes, strips paths, re-serializes, compresses iff
the compression flag is set, and stores the result under the entry's
original type code. -/
theorem write_entry_bytecode (E : Ext) (file : List Nat) (dest src : String)
    (compress : Nat) (tc : Char) (htc : tc = 'm' ∨ tc = 'M') :
    ((E.readFile src).take 4 ≠ E.bytecodeMagic →
        write_entry E file dest src compress tc =
          Except.error "AssertionError: bytecode magic mismatch") ∧
    ((E.readFile src).take 4 = E.bytecodeMagic →
        write_entry E file dest src compress tc =
          Except.ok
            (file ++ (if compress ≠ 0 then E.zlib (pycBlob E src) else pycBlob E src),
              ⟨file.length,
                (if compress ≠ 0 then E.zlib (pycBlob E src) else pycBlob E src).length,
                (pycBlob E src).length, compress, tc, destNameOf E dest⟩)) := by
  have ho : ¬ tc = 'o' := by rcases htc with rfl | rfl <;> decide
  have hd : ¬ tc = 'd' := by rcases htc with rfl | rfl <;> decide
  have hs : ¬ tc = 's' := by rcases htc with rfl | rfl <;> decide
  constructor
  · intro hm
    unfold write_entry
    rw [if_neg ho, if_neg hd, if_neg hs, if_pos htc, if_neg hm]
  · intro hm
    unfold write_entry
    rw [if_neg ho, if_neg hd, if_neg hs, if_pos htc, if_pos hm]
    unfold write_blob pycBlob
    rfl

theorem write_entry_bytecode_witness :
    (('m' : Char) = 'm' ∨ ('m' : Char) = 'M') ∧
    ((extWitness.readFile "s").take 4 = extWitness.bytecodeMagic →
      write_entry extWitness [] "n" "s" 0 'm' =
        Except.ok
          (([] : List Nat) ++ (if (0 : Nat) ≠ 0 then extWitness.zlib (pycBlob extWitness "s")
              else pycBlob extWitness "s"),
            ⟨([] : List Nat).length,
              (if (0 : Nat) ≠ 0 then extWitness.zlib (pycBlob extWitness "s")
                else pycBlob extWitness "s").length,
              (pycBlob extWitness "s").length, 0, 'm', destNameOf extWitness "n"⟩)) :=
  ⟨Or.inl rfl, (write_entry_bytecode extWitness [] "n" "s" 0 'm' (Or.inl rfl)).2⟩

/-- Claim C6 counterexample: in the outer-archive entry writer an entry
with an unknown type code (here 'q') does not raise any "unknown item
type" error — it silently falls through to the generic file-streaming
branch and succeeds. -/
theorem write_entry_unknown_typecode_no_error :
    write_entry extWitness [] "n" "s" 0 'q' =
      Except.ok ([1, 2, 3, 4] ++ List.replicate 12 0 ++ [42],
        ⟨0, 17, 17, 0, 'q', "n"⟩) := by rfl

/-! ## Inner archive rebuild (`repack_pyzarchive`) -/

/-- External collaborators of the PYZ rebuild: `os.path.exists`, the
`compile` builtin (with its file read), and `marshal.load` of an extracted
pyc file; the latter two may raise. -/
structure PyzEnv where
  Code : Type
  pathExists : String → Bool
  compileSource : String → String → Except String Code
  marshalLoadPyc : String → Except String Code

/-- One inner (PYZ) TOC entry value: `(typecode, offset, length)`. -/
structure PyzTocEntry where
  typ : Nat
  offset : Nat
  len : Nat
deriving DecidableEq

/-- `repack_pyzarchive.compile_item`: compile `fullpath` (or
`fullpath + 'c'`) from the replacement tree when present, otherwise
unmarshal the extracted pyc from the extraction tree (seek 16 then
`marshal.load`).  Returns the `code_dict` update. -/
def compile_item (E : PyzEnv) (extraPath : String) (pref : Nat)
    (name fullpath : String) : Except String (String × E.Code) :=
  let fp1 := if E.pathExists fullpath then fullpath else fullpath ++ "c"
  if E.pathExists fp1 then
    match E.compileSource name fp1 with
    | Except.error err => Except.error err
    | Except.ok c => Except.ok (name, c)
  else
    match E.marshalLoadPyc (pyJoin extraPath (strDrop fp1 pref)) with
    | Except.error err => Except.error err
    | Except.ok c => Except.ok (name, c)

/-- The per-entry loop of `repack_pyzarchive`: build the logical TOC
`(name, src_path, analysis-level typecode)` and the `code_dict`; an
unknown item type raises `ValueError('unknown PYZ item type "%s"')`. -/
def repack_pyz_loop (E : PyzEnv) (extraPath obfpath : String) (pref : Nat) :
    List (String × PyzTocEntry) → List (String × String × String) →
    List (String × E.Code) →
    Except String (List (String × String × String) × List (String × E.Code))
  | [], acc, dict => Except.ok (acc, dict)
  | (name, e) :: rest, acc, dict =>
    let filename := String.mk (sanitizeEntryName name)
    if e.typ = PYZ_ITEM_PKG then
      match compile_item E extraPath pref name
          (pyJoin (pyJoin obfpath filename) "__init__.py") with
      | Except.error err => Except.error err
      | Except.ok du =>
        repack_pyz_loop E extraPath obfpath pref rest
          (acc ++ [(name, pyJoin (pyJoin obfpath filename) "__init__.py", "PYMODULE")])
          (dict ++ [du])
    else if e.typ = PYZ_ITEM_MODULE then
      match compile_item E extraPath pref name (pyJoin obfpath (filename ++ ".py")) with
      | Except.error err => Except.error err
      | Except.ok du =>
        repack_pyz_loop E extraPath obfpath pref rest
          (acc ++ [(name, pyJoin obfpath (filename ++ ".py"), "PYMODULE")])
          (dict ++ [du])
    else if e.typ = PYZ_ITEM_DATA then
      repack_pyz_loop E extraPath obfpath pref rest
        (acc ++ [(name, pyJoin extraPath filename, "DATA")]) dict
    else if e.typ = PYZ_ITEM_NSPKG then
      repack_pyz_loop E extraPath obfpath pref rest
        (acc ++ [(name, "-", "PYMODULE")]) dict
    else
      Except.error ("unknown PYZ item type \"" ++ toString e.typ ++ "\"")

/-- `repack_pyzarchive` (its pure content): derive the logical TOC and the
`code_dict` that are handed to the external `ZlibArchiveWriter`, starting
with the injected runtime module entry. -/
def repack_pyzarchive (E : PyzEnv) (pyzpath obfpath rtpath : String)
    (pyztoc : List (String × PyzTocEntry)) :
    Except String (List (String × String × String) × List (String × E.Code)) :=
  let extraPath := pyzpath ++ EXTRACT_SUFFIX
  let pref := obfpath.length + 1
  let rtname := pyBasename rtpath
  match compile_item E extraPath pref rtname (pyJoin rtpath "__init__.py") with
  | Except.error err => Except.error err
  | Except.ok du =>
    repack_pyz_loop E extraPath obfpath pref pyztoc
      [(rtname, pyJoin rtpath "__init__.py", "PYMODULE")] [du]

theorem compile_item_ok (E : PyzEnv)
    (hcompile : ∀ n p, ∃ c, E.compileSource n p = Except.ok c)
    (hload : ∀ p, ∃ c, E.marshalLoadPyc p = Except.ok c)
    (extraPath : String) (pref : Nat) (name fullpath : String) :
    ∃ du, compile_item E extraPath pref name fullpath = Except.ok du := by
  simp only [compile_item]
  by_cases hex : E.pathExists
      (if E.pathExists fullpath then fullpath else fullpath ++ "c") = true
  · rw [if_pos hex]
    obtain ⟨c, hc⟩ := hcompile name
      (if E.pathExists fullpath then fullpath else fullpath ++ "c")
    rw [hc]
    exact ⟨(name, c), rfl⟩
  · rw [if_neg hex]
    obtain ⟨c, hc⟩ := hload (pyJoin extraPath
      (strDrop (if E.pathExists fullpath then fullpath else fullpath ++ "c") pref))
    rw [hc]
    exact ⟨(name, c), rfl⟩

theorem repack_pyz_loop_unknown (E : PyzEnv) (extraPath obfpath : String) (pref : Nat)
    (hcompile : ∀ n p, ∃ c, E.compileSource n p = Except.ok c)
    (hload : ∀ p, ∃ c, E.marshalLoadPyc p = Except.ok c)
    (name : String) (e : PyzTocEntry)
    (he : e.typ ≠ PYZ_ITEM_PKG ∧ e.typ ≠ PYZ_ITEM_MODULE ∧ e.typ ≠ PYZ_ITEM_DATA ∧
      e.typ ≠ PYZ_ITEM_NSPKG) :
    ∀ pre, (∀ q ∈ pre, (q : String × PyzTocEntry).2.typ = PYZ_ITEM_PKG ∨
        q.2.typ = PYZ_ITEM_MODULE ∨ q.2.typ = PYZ_ITEM_DATA ∨ q.2.typ = PYZ_ITEM_NSPKG) →
      ∀ post acc dict,
        repack_pyz_loop E extraPath obfpath pref (pre ++ (name, e) :: post) acc dict =
          Except.error ("unknown PYZ item type \"" ++ toString e.typ ++ "\"") := by
  intro pre
  induction pre with
  | nil =>
    intro _ post acc dict
    rw [List.nil_append, repack_pyz_loop]
    rw [if_neg he.1, if_neg he.2.1, if_neg he.2.2.1, if_neg he.2.2.2]
  | cons q pre2 ih =>
    intro hpre post acc dict
    obtain ⟨qn, qe⟩ := q
    have hq := hpre _ (List.mem_cons_self _ _)
    have hrest : ∀ r ∈ pre2, (r : String × PyzTocEntry).2.typ = PYZ_ITEM_PKG ∨
        r.2.typ = PYZ_ITEM_MODULE ∨ r.2.typ = PYZ_ITEM_DATA ∨
        r.2.typ = PYZ_ITEM_NSPKG :=
      fun r hr => hpre r (List.mem_cons_of_mem _ hr)
    rw [List.cons_append, repack_pyz_loop]
    rcases hq with h1 | h1 | h1 | h1
    · rw [if_pos h1]
      obtain ⟨du, hdu⟩ := compile_item_ok E hcompile hload extraPath pref qn _
      rw [hdu]
      exact ih hrest post _ _
    · rw [if_neg (by rw [h1]; decide), if_pos h1]
      obtain ⟨du, hdu⟩ := compile_item_ok E hcompile hload extraPath pref qn _
      rw [hdu]
      exact ih hrest post _ _
    · rw [if_neg (by rw [h1]; decide), if_neg (by rw [h1]; decide), if_pos h1]
      exact ih hrest post _ _
    · rw [if_neg (by rw [h1]; decide), if_neg (by rw [h1]; decide),
        if_neg (by rw [h1]; decide), if_pos h1]
      exact ih hrest post _ _

/-- Claim C6 (amended): only the inner-archive rebuild treats an unknown
type code as fatal — an entry whose PYZ type code is not one of the four
known codes makes `repack_pyzarchive` fail with the `unknown PYZ item
type` error (compilation of the preceding entries succeeding); the
outer-archive entry writer instead silently falls back to generic file
streaming, and extraction silently skips unknown types. -/
theorem repack_pyzarchive_unknown_type (E : PyzEnv)
    (pyzpath obfpath rtpath : String)
    (pre post : List (String × PyzTocEntry)) (name : String) (e : PyzTocEntry)
    (hcompile : ∀ n p, ∃ c, E.compileSource n p = Except.ok c)
    (hload : ∀ p, ∃ c, E.marshalLoadPyc p = Except.ok c)
    (hpre : ∀ q ∈ pre, (q : String × PyzTocEntry).2.typ = PYZ_ITEM_PKG ∨
      q.2.typ = PYZ_ITEM_MODULE ∨ q.2.typ = PYZ_ITEM_DATA ∨ q.2.typ = PYZ_ITEM_NSPKG)
    (he : e.typ ≠ PYZ_ITEM_PKG ∧ e.typ ≠ PYZ_ITEM_MODULE ∧ e.typ ≠ PYZ_ITEM_DATA ∧
      e.typ ≠ PYZ_ITEM_NSPKG) :
    repack_pyzarchive E pyzpath obfpath rtpath (pre ++ (name, e) :: post) =
      Except.error ("unknown PYZ item type \"" ++ toString e.typ ++ "\"") := by
  simp only [repack_pyzarchive]
  obtain ⟨du, hdu⟩ := compile_item_ok E hcompile hload (pyzpath ++ EXTRACT_SUFFIX)
    (obfpath.length + 1) (pyBasename rtpath) (pyJoin rtpath "__init__.py")
  rw [hdu]
  exact repack_pyz_loop_unknown E _ _ _ hcompile hload name e he pre hpre post _ _

/-- A concrete PYZ environment for the witness: everything succeeds. -/
def pyzEnvWitness : PyzEnv where
  Code := Unit
  pathExists := fun _ => true
  compileSource := fun _ _ => Except.ok ()
  marshalLoadPyc := fun _ => Except.ok ()

theorem repack_pyzarchive_unknown_type_witness :
    (∀ n p, ∃ c, pyzEnvWitness.compileSource n p = Except.ok c) ∧
    (∀ p, ∃ c, pyzEnvWitness.marshalLoadPyc p = Except.ok c) ∧
    ((7 : Nat) ≠ PYZ_ITEM_PKG ∧ (7 : Nat) ≠ PYZ_ITEM_MODULE ∧
      (7 : Nat) ≠ PYZ_ITEM_DATA ∧ (7 : Nat) ≠ PYZ_ITEM_NSPKG) ∧
    repack_pyzarchive pyzEnvWitness "build/PYZ-00.pyz" "dist" "dist/rt"
        ([] ++ ("x", ⟨7, 0, 0⟩) :: []) =
      Except.error ("unknown PYZ item type \"" ++ toString (7 : Nat) ++ "\"") :=
  ⟨fun n p => ⟨(), rfl⟩, fun p => ⟨(), rfl⟩, by decide,
    repack_pyzarchive_unknown_type pyzEnvWitness "build/PYZ-00.pyz" "dist" "dist/rt"
      [] [] "x" ⟨7, 0, 0⟩ (fun n p => ⟨(), rfl⟩) (fun p => ⟨(), rfl⟩)
      (by intro q hq; exact absurd hq (List.not_mem_nil q)) (by decide)⟩

/-! ## Outer reader logical TOC (`CArchiveReader2.get_logical_toc`) -/

/-- One parsed outer TOC entry value, without its name:
`(dpos, dlen, ulen, flag, typcd)`. -/
structure ReaderEntry where
  dpos : Nat
  dlen : Nat
  ulen : Nat
  flag : Nat
  typ : Char
deriving DecidableEq

/-- Insert into a Python dict modelled as an association list: an existing
key is updated in place, a new key is appended. -/
def dictInsert {V : Type} (d : List (String × V)) (k : String) (v : V) :
    List (String × V) :=
  match d with
  | [] => [(k, v)]
  | (k2, v2) :: rest =>
    if k2 = k then (k2, v) :: rest else (k2, v2) :: dictInsert rest k v

/-- Build a Python dict from an association list ("last write wins", as in
`CArchiveReader2.get_toc`). -/
def pyDict {V : Type} (l : List (String × V)) : List (String × V) :=
  l.foldl (fun d kv => dictInsert d kv.1 kv.2) []

/-- The replacement-source path computed for one entry in
`CArchiveReader2.get_logical_toc` (`none` models Python `None`; note that
dependency and runtime-option entries get the empty string, not `None`). -/
def computed_source (buildpath obfpath name : String) (tc : Char) : Option String :=
  if tc = 'm' then some (pyJoin obfpath (name ++ ".py"))
  else if tc = 's' then some (pyJoin obfpath (name ++ ".py"))
  else if tc = 'M' then some (pyJoin (pyJoin obfpath name) "__init__.py")
  else if tc = 'z' then some (pyJoin buildpath name)
  else if tc = 'd' ∨ tc = 'o' then some ""
  else none

/-- The `if source and not os.path.exists(source): source = None` fixup of
`get_logical_toc` (Python truthiness: the empty string is falsy and skips
the existence check). -/
def logical_source (ex : String → Bool) (buildpath obfpath name : String)
    (tc : Char) : Option String :=
  match computed_source buildpath obfpath name tc with
  | none => none
  | some s => if s ≠ "" ∧ ¬ ex s = true then none else some s

/-- `CArchiveReader2.get_logical_toc`: one `(name, source, flag, typecode)`
item per (name-keyed) TOC entry. -/
def get_logical_toc (ex : String → Bool) (buildpath obfpath : String)
    (toc : List (String × ReaderEntry)) : List LogicalEntry :=
  (pyDict toc).map (fun kv =>
    ⟨kv.1, logical_source ex buildpath obfpath kv.1 kv.2.typ, kv.2.flag, kv.2.typ⟩)

/-- Claim C10: if the computed replacement source path for an entry does
not exist on disk, the entry's source is silently set to `none`; entries
of type codes other than module ('m'), source ('s'), package ('M'), nested
archive ('z'), dependency ('d') and runtime option ('o') always get a
`none` source; and a `none` source makes the writer's entry loop copy the
entry's bytes from the original archive without error. -/
theorem logical_toc_source_fallback (ex : String → Bool)
    (buildpath obfpath name : String) (tc : Char) :
    (∀ p, computed_source buildpath obfpath name tc = some p → p ≠ "" →
      ex p = false → logical_source ex buildpath obfpath name tc = none) ∧
    (tc ∉ (['m', 's', 'M', 'z', 'd', 'o'] : List Char) →
      logical_source ex buildpath obfpath name tc = none) ∧
    (∀ (E : Ext) (file : List Nat) (toc : List TocRaw) (dest : String)
        (cf : Nat) (tcw : Char),
      write_entries_loop E [⟨dest, none, cf, tcw⟩] file toc =
        Except.ok ((write_blob E file (fix_extract (E.extract dest)) dest tcw cf).1,
          toc ++ [(write_blob E file (fix_extract (E.extract dest)) dest tcw cf).2])) := by
  refine ⟨?_, ?_, ?_⟩
  · intro p hp hne hex
    unfold logical_source
    rw [hp]
    show (if p ≠ "" ∧ ¬ ex p = true then none else some p) = none
    rw [if_pos ⟨hne, by simp [hex]⟩]
  · intro htc
    simp only [List.mem_cons, List.mem_singleton, not_or] at htc
    obtain ⟨h1, h2, h3, h4, h5, h6⟩ := htc
    unfold logical_source computed_source
    rw [if_neg h1, if_neg h2, if_neg h3, if_neg h4, if_neg (by tauto)]
  · intro E file toc dest cf tcw
    rfl

theorem logical_toc_source_fallback_witness :
    computed_source "build" "dist" "foo" 'm' = some "dist/foo.py" ∧
    ("dist/foo.py" : String) ≠ "" ∧
    logical_source (fun _ => false) "build" "dist" "foo" 'm' = none :=
  ⟨by decide, by decide,
    (logical_toc_source_fallback (fun _ => false) "build" "dist" "foo" 'm').1
      "dist/foo.py" (by decide) (by decide) rfl⟩

/-! ## The repack orchestrator (`Repacker`) -/

/-- The externally visible effects of one `Repacker.repack` run, in
order. -/
inductive RAction where
  | pyzRepack (pyzpath : String)
  | macDylib (rtbinary rtbinname : String)
  | copyRuntime (rtbinary dest : String)
  | carchiveRepack (rtentry : Option LogicalEntry)
  | exePatch (pkgname : String)
deriving DecidableEq

/-- External collaborators of `Repacker.repack` beyond the PYZ rebuild:
`os.path.normpath`, `os.listdir`, the platform flag, and the outcomes of
the (externally effectful) outer rebuild and host-patch steps. -/
structure RepackEnv where
  normpath : String → String
  listdir : String → List String
  isDarwin : Bool
  carchiveOutcome : Except String Unit
  patchOutcome : Except String Unit

/-- The state recorded by `Repacker.extract_carchive`. -/
structure RepackerState where
  executable : String
  buildpath : String
  contents : List String
  pyzTocs : List (String × List (String × PyzTocEntry))
  oneFileMode : Bool

/-- `Repacker.extract_carchive`: record, for every nested-archive ('z')
entry of the (name-keyed) outer TOC, its extraction directory and its
inner TOC, and set the one-file heuristic `len(pkgtoc) > 10`.  `pyzToc`
stands for `open_pyzarchive(name).toc`. -/
def extract_carchive (exe buildpath : String)
    (pkgtocRaw : List (String × ReaderEntry))
    (pyzToc : String → List (String × PyzTocEntry)) : RepackerState :=
  let pkgtoc := pyDict pkgtocRaw
  let zEntries := pkgtoc.filter (fun kv => kv.2.typ = 'z')
  { executable := exe
    buildpath := buildpath
    contents := zEntries.map (fun kv => pyJoin buildpath (kv.1 ++ EXTRACT_SUFFIX))
    pyzTocs := zEntries.map (fun kv => (kv.1, pyzToc kv.1))
    oneFileMode := decide (pkgtoc.length > 10) }

/-- Python `s.endswith(t)`. -/
def strEndsWith (s t : String) : Bool := t.data.isSuffixOf s.data

/-- Python `s[:-n]`. -/
def strDropRight (s : String) (n : Nat) : String :=
  String.mk (s.data.take (s.data.length - n))

/-- The runtime-binary naming convention checked in `Repacker.repack`:
`x.startswith('pyarmor_runtime') and ext in ('.so', '.pyd')`. -/
def runtime_file_pred (x : String) : Bool :=
  "pyarmor_runtime".data.isPrefixOf x.data &&
    (splitextExt x == ".so" || splitextExt x == ".pyd")

/-- The per-nested-archive loop at the top of `Repacker.repack`: each
recorded content directory ending in the extraction suffix triggers
`repack_pyzarchive` against the recorded inner TOC. -/
def repack_pyz_steps (E : PyzEnv) (st : RepackerState) (obfpath rtpath : String) :
    List String → List RAction → List RAction × Option String
  | [], acc => (acc, none)
  | item :: rest, acc =>
    if strEndsWith item EXTRACT_SUFFIX then
      match List.lookup (pyBasename (strDropRight item EXTRACT_SUFFIX.length))
          st.pyzTocs with
      | none => (acc, some "KeyError")
      | some pyztoc =>
        match repack_pyzarchive E (strDropRight item EXTRACT_SUFFIX.length)
            obfpath rtpath pyztoc with
        | Except.error err =>
          (acc ++ [RAction.pyzRepack (strDropRight item EXTRACT_SUFFIX.length)],
            some err)
        | Except.ok _ =>
          repack_pyz_steps E st obfpath rtpath rest
            (acc ++ [RAction.pyzRepack (strDropRight item EXTRACT_SUFFIX.length)])
    else repack_pyz_steps E st obfpath rtpath rest acc

/-- `Repacker.repack`: normalize the replacement root, repack every nested
archive, locate the runtime binary (fatal `no pyarmor runtime files found`
when absent), choose between bundling it as an extra compressed binary
entry (one-file mode) and copying it next to the executable, then rebuild
the outer archive (`repack_carchive`, with `PKG-patched`) and patch the
executable.  Returns the performed effects plus the error, if any. -/
def repacker_repack (E : PyzEnv) (re : RepackEnv) (st : RepackerState)
    (obfpath0 rtname : String) : List RAction × Option String :=
  let obfpath := re.normpath obfpath0
  let rtpath := pyJoin obfpath rtname
  match repack_pyz_steps E st obfpath rtpath st.contents [] with
  | (acts, some err) => (acts, some err)
  | (acts, none) =>
    match (re.listdir rtpath).find? runtime_file_pred with
    | none => (acts, some "no pyarmor runtime files found")
    | some x =>
      let acts2 := acts ++
        (if re.isDarwin then [RAction.macDylib (pyJoin rtpath x) (pyJoin rtname x)]
          else [])
      let step : List RAction × Option LogicalEntry :=
        if st.oneFileMode then
          (acts2, some ⟨pyJoin rtname x, some (pyJoin rtpath x), 1, 'b'⟩)
        else
          (acts2 ++ [RAction.copyRuntime (pyJoin rtpath x)
            (pyJoin (pyDirname st.executable) rtname)], none)
      match re.carchiveOutcome with
      | Except.error err => (step.1 ++ [RAction.carchiveRepack step.2], some err)
      | Except.ok _ =>
        match re.patchOutcome with
        | Except.error err =>
          (step.1 ++ [RAction.carchiveRepack step.2, RAction.exePatch "PKG-patched"],
            some err)
        | Except.ok _ =>
          (step.1 ++ [RAction.carchiveRepack step.2, RAction.exePatch "PKG-patched"],
            none)

/-- The logical TOC built in `repack_carchive`: the reader's logical TOC
with the optional extra runtime entry appended at the end. -/
def repack_carchive_toc (ex : String → Bool) (buildpath obfpath : String)
    (toc : List (String × ReaderEntry)) (rtentry : Option LogicalEntry) :
    List LogicalEntry :=
  get_logical_toc ex buildpath obfpath toc ++
    (match rtentry with
      | some e => [e]
      | none => [])

theorem repack_pyz_steps_actions (E : PyzEnv) (st : RepackerState)
    (obfpath rtpath : String) :
    ∀ (items : List String) (acc : List RAction),
      (∀ a ∈ acc, ∃ p, a = RAction.pyzRepack p) →
      ∀ a ∈ (repack_pyz_steps E st obfpath rtpath items acc).1,
        ∃ p, a = RAction.pyzRepack p := by
  intro items
  induction items with
  | nil =>
    intro acc hacc a ha
    exact hacc a ha
  | cons item rest ih =>
    intro acc hacc a ha
    rw [repack_pyz_steps] at ha
    split at ha
    · split at ha
      · exact hacc a ha
      · split at ha
        · rcases List.mem_append.mp ha with h | h
          · exact hacc a h
          · exact ⟨_, List.mem_singleton.mp h⟩
        · refine ih _ ?_ a ha
          intro b hb
          rcases List.mem_append.mp hb with h | h
          · exact hacc b h
          · exact ⟨_, List.mem_singleton.mp h⟩
    · exact ih _ hacc a ha

/-- Claim C7: when the runtime subdirectory of the replacement tree
contains no file matching the fixed runtime naming convention, a repack
run fails (with the `no pyarmor runtime files found` RuntimeError when the
earlier inner rebuilds succeed) before the outer archive is rebuilt and
before the host binary is modified in any way: no outer-rebuild step, no
host-patch step and no runtime-copy step is performed. -/
theorem repack_no_runtime_fatal (E : PyzEnv) (re : RepackEnv) (st : RepackerState)
    (obfpath0 rtname : String)
    (h : ∀ x ∈ re.listdir (pyJoin (re.normpath obfpath0) rtname),
      runtime_file_pred x = false) :
    ((repacker_repack E re st obfpath0 rtname).2.isSome = true) ∧
    (∀ o, RAction.carchiveRepack o ∉ (repacker_repack E re st obfpath0 rtname).1) ∧
    (∀ p, RAction.exePatch p ∉ (repacker_repack E re st obfpath0 rtname).1) ∧
    (∀ s d, RAction.copyRuntime s d ∉ (repacker_repack E re st obfpath0 rtname).1) := by
  have hfind : (re.listdir (pyJoin (re.normpath obfpath0) rtname)).find?
      runtime_file_pred = none := by
    rw [List.find?_eq_none]
    intro x hx
    rw [h x hx]
    exact Bool.false_ne_true
  have hacts := repack_pyz_steps_actions E st (re.normpath obfpath0)
    (pyJoin (re.normpath obfpath0) rtname) st.contents []
    (fun a ha => absurd ha (List.not_mem_nil a))
  simp only [repacker_repack]
  rcases hsteps : repack_pyz_steps E st (re.normpath obfpath0)
      (pyJoin (re.normpath obfpath0) rtname) st.contents [] with ⟨acts, err⟩
  rw [hsteps] at hacts
  cases err with
  | some e =>
    refine ⟨rfl, ?_, ?_, ?_⟩
    · intro o hmem
      obtain ⟨p, hp⟩ := hacts _ hmem
      exact RAction.noConfusion hp
    · intro p hmem
      obtain ⟨q, hq⟩ := hacts _ hmem
      exact RAction.noConfusion hq
    · intro s d hmem
      obtain ⟨q, hq⟩ := hacts _ hmem
      exact RAction.noConfusion hq
  | none =>
    rw [hfind]
    refine ⟨rfl, ?_, ?_, ?_⟩
    · intro o hmem
      obtain ⟨p, hp⟩ := hacts _ hmem
      exact RAction.noConfusion hp
    · intro p hmem
      obtain ⟨q, hq⟩ := hacts _ hmem
      exact RAction.noConfusion hq
    · intro s d hmem
      obtain ⟨q, hq⟩ := hacts _ hmem
      exact RAction.noConfusion hq

theorem repack_no_runtime_fatal_witness :
    (∀ x ∈ (RepackEnv.mk (fun s => s) (fun _ => ["data.txt"]) false
        (Except.ok ()) (Except.ok ())).listdir
        (pyJoin ((RepackEnv.mk (fun s => s) (fun _ => ["data.txt"]) false
          (Except.ok ()) (Except.ok ())).normpath "dist") "rt"),
      runtime_file_pred x = false) ∧
    ((repacker_repack pyzEnvWitness
        (RepackEnv.mk (fun s => s) (fun _ => ["data.txt"]) false
          (Except.ok ()) (Except.ok ()))
        (RepackerState.mk "app" "build" [] [] false) "dist" "rt").2.isSome = true) :=
  ⟨by intro x hx; simp only [List.mem_singleton] at hx; subst hx; decide,
    (repack_no_runtime_fatal pyzEnvWitness
      (RepackEnv.mk (fun s => s) (fun _ => ["data.txt"]) false
        (Except.ok ()) (Except.ok ()))
      (RepackerState.mk "app" "build" [] [] false) "dist" "rt"
      (by intro x hx; simp only [List.mem_singleton] at hx; subst hx; decide)).1⟩

/-- Claim C9: starting from the state recorded by `extract_carchive`, a
successful repack passes the runtime binary to the outer rebuild as an
extra compressed binary entry (`compress = 1`, typecode 'b') iff the
original (name-keyed) outer TOC has more than 10 entries; otherwise no
extra entry is passed and the runtime binary is instead copied into a
directory next to the executable.  `repack_carchive` appends the extra
entry, when present, at the end of the writer's logical TOC. -/
theorem one_file_mode_runtime_entry (E : PyzEnv) (re : RepackEnv)
    (exe buildpath : String) (pkgtocRaw : List (String × ReaderEntry))
    (pyzToc : String → List (String × PyzTocEntry)) (obfpath0 rtname : String)
    (hsucc : (repacker_repack E re (extract_carchive exe buildpath pkgtocRaw pyzToc)
        obfpath0 rtname).2 = none) :
    ((pyDict pkgtocRaw).length > 10 →
      (∃ nm src, RAction.carchiveRepack (some ⟨nm, some src, 1, 'b'⟩) ∈
          (repacker_repack E re (extract_carchive exe buildpath pkgtocRaw pyzToc)
            obfpath0 rtname).1) ∧
      (∀ s d, RAction.copyRuntime s d ∉
        (repacker_repack E re (extract_carchive exe buildpath pkgtocRaw pyzToc)
          obfpath0 rtname).1)) ∧
    (¬ (pyDict pkgtocRaw).length > 10 →
      (RAction.carchiveRepack none ∈
        (repacker_repack E re (extract_carchive exe buildpath pkgtocRaw pyzToc)
          obfpath0 rtname).1) ∧
      (∃ s d, RAction.copyRuntime s d ∈
        (repacker_repack E re (extract_carchive exe buildpath pkgtocRaw pyzToc)
          obfpath0 rtname).1)) ∧
    (∀ (ex : String → Bool) (bp obf : String) (toc : List (String × ReaderEntry))
        (e : LogicalEntry),
      repack_carchive_toc ex bp obf toc (some e) =
        get_logical_toc ex bp obf toc ++ [e] ∧
      repack_carchive_toc ex bp obf toc none = get_logical_toc ex bp obf toc) := by
  have hofm : (extract_carchive exe buildpath pkgtocRaw pyzToc).oneFileMode =
      decide ((pyDict pkgtocRaw).length > 10) := rfl
  have hacts := repack_pyz_steps_actions E
    (extract_carchive exe buildpath pkgtocRaw pyzToc) (re.normpath obfpath0)
    (pyJoin (re.normpath obfpath0) rtname)
    (extract_carchive exe buildpath pkgtocRaw pyzToc).contents []
    (fun a ha => absurd ha (List.not_mem_nil a))
  simp only [repacker_repack] at hsucc ⊢
  rcases hsteps : repack_pyz_steps E (extract_carchive exe buildpath pkgtocRaw pyzToc)
      (re.normpath obfpath0) (pyJoin (re.normpath obfpath0) rtname)
      (extract_carchive exe buildpath pkgtocRaw pyzToc).contents [] with ⟨acts, err⟩
  rw [hsteps] at hsucc hacts
  cases err with
  | some e2 => exact absurd hsucc (by simp)
  | none =>
    cases hfind : (re.listdir (pyJoin (re.normpath obfpath0) rtname)).find?
        runtime_file_pred with
    | none =>
      rw [hfind] at hsucc
      exact absurd hsucc (by simp)
    | some x =>
      rw [hfind] at hsucc
      cases hco : re.carchiveOutcome with
      | error e2 =>
        rw [hco] at hsucc
        exact absurd hsucc (by simp)
      | ok u =>
        rw [hco] at hsucc
        cases hpo : re.patchOutcome with
        | error e2 =>
          rw [hpo] at hsucc
          exact absurd hsucc (by simp)
        | ok u2 =>
          refine ⟨?_, ?_, fun ex bp obf toc e => ⟨rfl, by simp [repack_carchive_toc]⟩⟩
          · intro hgt
            have hofmt : (extract_carchive exe buildpath pkgtocRaw pyzToc).oneFileMode
                = true := by rw [hofm]; exact decide_eq_true hgt
            constructor
            · refine ⟨pyJoin rtname x,
                pyJoin (pyJoin (re.normpath obfpath0) rtname) x, ?_⟩
              simp [hofmt]
            · intro s d hmem
              simp only [hofmt, if_true, List.append_assoc, List.mem_append,
                List.mem_cons, List.not_mem_nil, or_false] at hmem
              rcases hmem with h1 | h1
              · obtain ⟨p, hpz⟩ := hacts _ h1
                exact RAction.noConfusion hpz
              · rcases h1 with h1 | h1
                · revert h1
                  cases re.isDarwin <;> simp
                · rcases h1 with h1 | h1
                  · exact RAction.noConfusion h1
                  · exact RAction.noConfusion h1
          · intro hle
            have hofmf : (extract_carchive exe buildpath pkgtocRaw pyzToc).oneFileMode
                = false := by rw [hofm]; exact decide_eq_false hle
            constructor
            · simp [hofmf]
            · exact ⟨pyJoin (pyJoin (re.normpath obfpath0) rtname) x,
                pyJoin (pyDirname (extract_carchive exe buildpath pkgtocRaw
                  pyzToc).executable) rtname, by simp [hofmf]⟩

/-- A reader TOC with eleven distinct names, for the one-file witness. -/
def bigTocWitness : List (String × ReaderEntry) :=
  ["e0", "e1", "e2", "e3", "e4", "e5", "e6", "e7", "e8", "e9", "e10"].map
    (fun n => (n, ⟨0, 0, 0, 0, 'x'⟩))

theorem one_file_mode_runtime_entry_witness :
    ((repacker_repack pyzEnvWitness
        (RepackEnv.mk (fun s => s) (fun _ => ["pyarmor_runtime.so"]) false
          (Except.ok ()) (Except.ok ()))
        (extract_carchive "app" "build" bigTocWitness (fun _ => []))
        "dist" "rt").2 = none) ∧
    ((pyDict bigTocWitness).length > 10 →
      (∃ nm src, RAction.carchiveRepack (some ⟨nm, some src, 1, 'b'⟩) ∈
          (repacker_repack pyzEnvWitness
            (RepackEnv.mk (fun s => s) (fun _ => ["pyarmor_runtime.so"]) false
              (Except.ok ()) (Except.ok ()))
            (extract_carchive "app" "build" bigTocWitness (fun _ => []))
            "dist" "rt").1) ∧
      (∀ s d, RAction.copyRuntime s d ∉
        (repacker_repack pyzEnvWitness
          (RepackEnv.mk (fun s => s) (fun _ => ["pyarmor_runtime.so"]) false
            (Except.ok ()) (Except.ok ()))
          (extract_carchive "app" "build" bigTocWitness (fun _ => []))
          "dist" "rt").1)) :=
  ⟨by decide,
    (one_file_mode_runtime_entry pyzEnvWitness
      (RepackEnv.mk (fun s => s) (fun _ => ["pyarmor_runtime.so"]) false
        (Except.ok ()) (Except.ok ()))
      "app" "build" bigTocWitness (fun _ => []) "dist" "rt" (by decide)).1⟩

end Repack
